import Mathlib

/-!
Verification of the keyframe-alignment pipeline in `ffmpeg_pipeline.py`.

Timestamps (Python floats) are modelled as rationals `ℚ`; the operations the
claims exercise (comparisons, `max`/`min`, the `0.1` floor) are exact in any
ordered field, so `ℚ` is a faithful shallow embedding of the decision logic.
Paths are modelled as lists of characters / strings.  Subprocess interaction
(`run_cmd` and the `try`/`except` in `main`) is modelled as a function of the
child's return code that yields `Except`.
-/

namespace FFmpegPipeline

/-- Embeds `find_keyframe_before_or_equal` (ffmpeg_pipeline.py lines 59-61):
`max((kf for kf in times if kf <= t), default=0.0)`.  Python's `max` of the
non-empty filtered sequence is a left fold of binary `max`. -/
def find_keyframe_before_or_equal (times : List ℚ) (t : ℚ) : ℚ :=
  match times.filter (fun kf => kf ≤ t) with
  | [] => 0
  | x :: xs => xs.foldl max x

/-- Embeds `find_keyframe_after_or_equal` (lines 64-66):
`min((kf for kf in times if kf >= t), default=times[-1] if times else t)`.
`times[-1] if times else t` equals `getLast?.getD t`: the last element when
`times` is non-empty, else `t`. -/
def find_keyframe_after_or_equal (times : List ℚ) (t : ℚ) : ℚ :=
  match times.filter (fun kf => t ≤ kf) with
  | [] => (times.getLast?).getD t
  | x :: xs => xs.foldl min x

/-- Embeds `find_keyframe_after_or_equal` with the possibly-failing negative
index access made explicit: `times[-1]` is `getLast?` (whose `none` models the
`IndexError` that an unguarded access on an empty list would raise), and the
conditional expression `times[-1] if times else t` guards it exactly as the
source does. -/
def find_keyframe_after_or_equalE (times : List ℚ) (t : ℚ) : Option ℚ :=
  let dflt : Option ℚ := if times.isEmpty then some t else times.getLast?
  match times.filter (fun kf => t ≤ kf) with
  | [] => dflt
  | x :: xs => some (xs.foldl min x)

/-- The aligned range computed by `main` (lines 128-137): start, end, duration.
Field names follow the source variables `start_kf`, `end_kf`, `duration`. -/
structure AlignedRange where
  start_kf : ℚ
  end_kf : ℚ
  duration : ℚ
  deriving Repr, DecidableEq

/-- Embeds the keyframe-alignment block of `main` (lines 128-137):

```
if keyframes:
    start_kf = find_keyframe_before_or_equal(keyframes, args.start)
    end_kf = find_keyframe_after_or_equal(keyframes, args.end)
    if end_kf <= start_kf:
        end_kf = max(args.end, start_kf + 0.1)
else:
    start_kf, end_kf = args.start, args.end
duration = max(0.1, end_kf - start_kf)
```
-/
def locate (keyframes : List ℚ) (s e : ℚ) : AlignedRange :=
  if keyframes.isEmpty then
    { start_kf := s, end_kf := e, duration := max (0.1 : ℚ) (e - s) }
  else
    let start_kf := find_keyframe_before_or_equal keyframes s
    let end_kf0 := find_keyframe_after_or_equal keyframes e
    let end_kf := if end_kf0 ≤ start_kf then max e (start_kf + (0.1 : ℚ)) else end_kf0
    { start_kf := start_kf, end_kf := end_kf,
      duration := max (0.1 : ℚ) (end_kf - start_kf) }

/- Helper lemmas about folds of `max` / `min`. -/

/-- A left fold of `max` over a list yields a member of the list (with the
seed included). -/
theorem foldl_max_mem (xs : List ℚ) (x : ℚ) : xs.foldl max x ∈ x :: xs := by
  induction xs generalizing x with
  | nil => simp
  | cons y ys ih =>
    simp only [List.foldl_cons]
    rcases List.mem_cons.mp (ih (max x y)) with h1 | h1
    · rw [h1]
      rcases max_choice x y with hm | hm <;> rw [hm] <;> simp
    · exact List.mem_cons_of_mem _ (List.mem_cons_of_mem _ h1)

/-- A left fold of `min` over a list yields a member of the list (with the
seed included). -/
theorem foldl_min_mem (xs : List ℚ) (x : ℚ) : xs.foldl min x ∈ x :: xs := by
  induction xs generalizing x with
  | nil => simp
  | cons y ys ih =>
    simp only [List.foldl_cons]
    rcases List.mem_cons.mp (ih (min x y)) with h1 | h1
    · rw [h1]
      rcases min_choice x y with hm | hm <;> rw [hm] <;> simp
    · exact List.mem_cons_of_mem _ (List.mem_cons_of_mem _ h1)

/-- In a list sorted by `≤`, every member is at most the last element. -/
theorem sorted_le_getLast (l : List ℚ) (hs : l.Sorted (· ≤ ·)) :
    ∀ x ∈ l, ∀ (h : l ≠ []), x ≤ l.getLast h := by
  induction l with
  | nil => intro x hx; cases hx
  | cons a as ih =>
    intro x hx h
    cases as with
    | nil =>
      rcases List.mem_cons.mp hx with rfl | hmem
      · simp [List.getLast]
      · cases hmem
    | cons b bs =>
      have hs' := (List.sorted_cons.mp hs).2
      rw [List.getLast_cons (by simp : (b :: bs) ≠ [])]
      rcases List.mem_cons.mp hx with rfl | hmem
      · exact le_trans ((List.sorted_cons.mp hs).1 b (by simp))
          (ih hs' b (by simp) (by simp))
      · exact ih hs' x hmem (by simp)

/- Path escaping (`fix_path_for_ffmpeg`, lines 19-27).  The Python function
first normalizes with `os.path.abspath(path).replace("\\", "/")`; on an
already-absolute forward-slash path that normalization is the identity, so the
embedding models the colon-escaping step on the absolute forward-slash form,
which is exactly the form the claims quantify over. -/

/-- Embeds Python `s.replace(":", "\\:", 1)`: replace the first colon of the
character list by a backslash followed by a colon. -/
def replaceFirstColon : List Char → List Char
  | [] => []
  | c :: rest => if c = ':' then '\\' :: ':' :: rest else c :: replaceFirstColon rest

/-- Embeds the test `":" in abs_path[1:3]`: does a colon occur at index 1 or
index 2 of the path? -/
def hasColonAt12 (l : List Char) : Bool :=
  ((l.drop 1).take 2).contains ':'

/-- Embeds the conditional colon-escaping step of `fix_path_for_ffmpeg`
(lines 25-27) on the absolute forward-slash form of the path. -/
def fixPathChars (l : List Char) : List Char :=
  if hasColonAt12 l then replaceFirstColon l else l

/-- String wrapper for `fixPathChars`, the embedding of
`fix_path_for_ffmpeg` on an absolute forward-slash path. -/
def fix_path_for_ffmpeg (path : String) : String :=
  String.mk (fixPathChars path.data)

/-- A path begins with a drive-letter-style prefix: a single (alphabetic)
letter followed by a colon, as in `D:/clips/a.srt`. -/
def startsWithDriveLetter (l : List Char) : Bool :=
  match l with
  | c :: ':' :: _ => c.isAlpha
  | _ => false

/- Subprocess model (`run_cmd`, lines 30-38, and the `try`/`except` block of
`main`, lines 143-147).  The child process is abstracted by its exit code; the
raised `subprocess.CalledProcessError` becomes the `Except.error` branch. -/

/-- The data `subprocess.CalledProcessError(process.returncode, cmd)` carries:
the exit code and the command that failed. -/
structure CalledProcessError where
  returncode : Int
  cmd : List String
  deriving Repr, DecidableEq

/-- Embeds `run_cmd` (lines 30-38) as a function of the child's exit code:
`if process.returncode != 0: raise subprocess.CalledProcessError(returncode, cmd)`,
otherwise the function returns normally. -/
def run_command (returncode : Int) (cmd : List String) : Except CalledProcessError Unit :=
  if returncode ≠ 0 then Except.error { returncode := returncode, cmd := cmd }
  else Except.ok ()

/-- The success banner printed by `main` line 145. -/
def successMessage (output : String) : String :=
  "✅ Done! Output saved to: " ++ output

/-- The failure banner printed by `main` line 147. -/
def failureMessage : String :=
  "❌ FFmpeg failed — check the command above for errors."

/-- Embeds the `try`/`except` tail of `main` (lines 143-147): run the command,
catch `CalledProcessError`, and report.  The result type is `String` (the
banner printed), not `Except`: the exception is consumed, never re-raised. -/
def mainEncodeReport (returncode : Int) (cmd : List String) (output : String) : String :=
  match run_command returncode cmd with
  | Except.ok _ => successMessage output
  | Except.error _ => failureMessage

/- Command construction (`build_ffmpeg_command`, lines 69-108).  Python's
`f"{x:.3f}"` float formatting is embedded as fixed-point rendering with three
decimals after round-half-to-even, the rounding `format` applies. -/

/-- Round a rational to the nearest integer, ties to even. -/
def roundHalfEven (q : ℚ) : ℤ :=
  let f : ℤ := ⌊q⌋
  let r : ℚ := q - f
  if r < 1/2 then f
  else if 1/2 < r then f + 1
  else if f % 2 = 0 then f else f + 1

/-- Left-pad a string with zeros to the given width. -/
def padZeros (s : String) (w : Nat) : String :=
  if w ≤ s.length then s
  else String.mk (List.replicate (w - s.length) '0') ++ s

/-- Embeds Python `f"{q:.3f}"`: fixed-point, three digits after the point. -/
def formatFixed3 (q : ℚ) : String :=
  let m : ℤ := roundHalfEven (q * 1000)
  let sign : String := if m < 0 then "-" else ""
  let a : Nat := m.natAbs
  sign ++ String.mk (Nat.toDigits 10 (a / 1000)) ++ "." ++
    padZeros (String.mk (Nat.toDigits 10 (a % 1000))) 3

/-- The mandatory scale-then-pad stage of the video filter (lines 79-82). -/
def scale_pad : String :=
  "scale=1080:1920:force_original_aspect_ratio=decrease," ++
  "pad=1080:1920:(ow-iw)/2:(oh-ih)/2,setsar=1"

/-- Embeds `build_ffmpeg_command` (lines 69-108).  `input_path` and
`output_path` stand for their absolute forward-slash forms (on which
`os.path.abspath(...).replace("\\", "/")` is the identity); the subtitle path
goes through the colon-escaping of `fix_path_for_ffmpeg`. -/
def build_ffmpeg_command (input_path : String) (srt_path : Option String)
    (start_kf duration : ℚ) (output_path : String)
    (crf : Nat) (preset : String) : List String :=
  let vf : String :=
    match srt_path with
    | some srt =>
        let srt_fixed := fix_path_for_ffmpeg srt
        scale_pad ++ "," ++ "subtitles=\x27" ++ srt_fixed ++
          "\x27:force_style=\x27Fontsize=36,PrimaryColour=&HFFFFFF&\x27"
    | none => scale_pad
  ["ffmpeg", "-y",
   "-ss", formatFixed3 start_kf,
   "-i", input_path,
   "-t", formatFixed3 duration,
   "-vf", vf,
   "-af", "loudnorm=I=-16:TP=-1.5:LRA=11",
   "-c:v", "libx264",
   "-crf", toString crf,
   "-preset", preset,
   "-r", "30",
   "-c:a", "aac",
   "-b:a", "192k",
   output_path]

/-- On a non-empty keyframe list, `locate` takes the alignment branch of
`main`: start from `find_keyframe_before_or_equal`, end from
`find_keyframe_after_or_equal` with the `end_kf <= start_kf` correction. -/
theorem locate_ne_nil (K : List ℚ) (s e : ℚ) (hne : K ≠ []) :
    locate K s e =
      { start_kf := find_keyframe_before_or_equal K s,
        end_kf := if find_keyframe_after_or_equal K e ≤ find_keyframe_before_or_equal K s
                  then max e (find_keyframe_before_or_equal K s + (0.1 : ℚ))
                  else find_keyframe_after_or_equal K e,
        duration := max (0.1 : ℚ)
          ((if find_keyframe_after_or_equal K e ≤ find_keyframe_before_or_equal K s
            then max e (find_keyframe_before_or_equal K s + (0.1 : ℚ))
            else find_keyframe_after_or_equal K e) -
           find_keyframe_before_or_equal K s) } := by
  cases K with
  | nil => exact absurd rfl hne
  | cons a as => rfl

/-- If the filtered list of keyframes at most `t` is non-trivial, the result
of `find_keyframe_before_or_equal` is one of the filtered elements. -/
theorem find_before_mem (times : List ℚ) (t : ℚ)
    (h : ∃ k ∈ times, k ≤ t) :
    find_keyframe_before_or_equal times t ∈ times ∧
    find_keyframe_before_or_equal times t ≤ t := by
  unfold find_keyframe_before_or_equal
  cases hfil : times.filter (fun kf => kf ≤ t) with
  | nil =>
    obtain ⟨k, hk, hkt⟩ := h
    have := List.filter_eq_nil_iff.mp hfil k hk
    simp at this
    exact absurd hkt (not_le.mpr this)
  | cons x xs =>
    have hmem : xs.foldl max x ∈ x :: xs := foldl_max_mem xs x
    rw [← hfil] at hmem
    have := List.mem_filter.mp hmem
    refine ⟨this.1, by simpa using this.2⟩

/-- If some keyframe is at least `t`, the result of
`find_keyframe_after_or_equal` is one of the filtered elements. -/
theorem find_after_mem (times : List ℚ) (t : ℚ)
    (h : ∃ k ∈ times, t ≤ k) :
    find_keyframe_after_or_equal times t ∈ times ∧
    t ≤ find_keyframe_after_or_equal times t := by
  unfold find_keyframe_after_or_equal
  cases hfil : times.filter (fun kf => t ≤ kf) with
  | nil =>
    obtain ⟨k, hk, hkt⟩ := h
    have := List.filter_eq_nil_iff.mp hfil k hk
    simp at this
    exact absurd hkt (not_le.mpr this)
  | cons x xs =>
    have hmem : xs.foldl min x ∈ x :: xs := foldl_min_mem xs x
    rw [← hfil] at hmem
    have := List.mem_filter.mp hmem
    refine ⟨this.1, by simpa using this.2⟩

/-- If no keyframe is at least `t` and the list is non-empty,
`find_keyframe_after_or_equal` falls back to the last element. -/
theorem find_after_default (times : List ℚ) (t : ℚ) (hne : times ≠ [])
    (h : ∀ k ∈ times, ¬ t ≤ k) :
    find_keyframe_after_or_equal times t = times.getLast hne := by
  unfold find_keyframe_after_or_equal
  cases hfil : times.filter (fun kf => t ≤ kf) with
  | nil =>
    rw [List.getLast?_eq_getLast_of_ne_nil hne]
    rfl
  | cons x xs =>
    have hmem : x ∈ times.filter (fun kf => t ≤ kf) := by rw [hfil]; simp
    have := List.mem_filter.mp hmem
    have hx := h x this.1
    simp at this
    exact absurd this.2 hx

/-- C4: for every non-empty sorted keyframe sequence K and every requested
range (s, e) with s ≤ e, the aligned start computed by the locator is an
element of K that is ≤ s, or exactly 0.0 if no element of K is ≤ s. -/
theorem C4_start_aligned (K : List ℚ) (s e : ℚ) (hne : K ≠ [])
    (hs : K.Sorted (· ≤ ·)) (hse : s ≤ e) :
    ((locate K s e).start_kf ∈ K ∧ (locate K s e).start_kf ≤ s) ∨
    ((∀ k ∈ K, ¬ k ≤ s) ∧ (locate K s e).start_kf = 0) := by
  rw [locate_ne_nil K s e hne]
  by_cases h : ∃ k ∈ K, k ≤ s
  · exact Or.inl (find_before_mem K s h)
  · push_neg at h
    right
    refine ⟨fun k hk => not_le.mpr (h k hk), ?_⟩
    show find_keyframe_before_or_equal K s = 0
    unfold find_keyframe_before_or_equal
    cases hfil : K.filter (fun kf => kf ≤ s) with
    | nil => rfl
    | cons x xs =>
      have hmem : x ∈ K.filter (fun kf => kf ≤ s) := by rw [hfil]; simp
      have hx := List.mem_filter.mp hmem
      have h2 := h x hx.1
      simp at hx
      exact absurd hx.2 (not_le.mpr h2)

/-- C4 witness: K = [1, 3], request (2, 4). -/
theorem C4_start_aligned_witness :
    (([1, 3] : List ℚ) ≠ [] ∧ ([1, 3] : List ℚ).Sorted (· ≤ ·) ∧ (2 : ℚ) ≤ 4) ∧
    (((locate [1, 3] 2 4).start_kf ∈ ([1, 3] : List ℚ) ∧ (locate [1, 3] 2 4).start_kf ≤ 2) ∨
     ((∀ k ∈ ([1, 3] : List ℚ), ¬ k ≤ 2) ∧ (locate [1, 3] 2 4).start_kf = 0)) :=
  ⟨⟨by simp, by norm_num [List.sorted_cons], by norm_num⟩,
   C4_start_aligned [1, 3] 2 4 (by simp) (by norm_num [List.sorted_cons]) (by norm_num)⟩

/-- C1 counterexample: K = [5], request (5, 5).  The correction in `main`
fires (`end_kf <= start_kf`) and sets the end to max(5, 5 + 0.1) = 5.1, which
is neither an element of K ≥ 5 nor the maximum of K (even though 5 ∈ K is ≥ 5,
so the claimed "maximum of K" fallback is not even licensed here). -/
theorem C1_end_aligned_counterexample :
    ¬ (((locate [5] 5 5).end_kf ∈ ([5] : List ℚ) ∧ (5 : ℚ) ≤ (locate [5] 5 5).end_kf) ∨
       ((∀ k ∈ ([5] : List ℚ), k < 5) ∧ (locate [5] 5 5).end_kf ∈ ([5] : List ℚ) ∧
        ∀ k ∈ ([5] : List ℚ), k ≤ (locate [5] 5 5).end_kf)) := by
  have he : (locate [5] 5 5).end_kf = 5.1 := by
    norm_num [locate, find_keyframe_before_or_equal, find_keyframe_after_or_equal, List.filter]
  rw [he]
  rintro (⟨hmem, -⟩ | ⟨hlt, -, -⟩)
  · simp at hmem
    norm_num at hmem
  · have := hlt 5 (by simp)
    norm_num at this

/-- C1 amended: for every non-empty sorted keyframe sequence K and every
requested range (s, e) with s ≤ e, when the uncorrected aligned end exceeds
the aligned start the end is an element of K that is ≥ e, or the maximum of K
if no element of K is ≥ e; when the uncorrected end is ≤ the aligned start,
the end is instead max(e, start + 0.1). -/
theorem C1_end_aligned_amended (K : List ℚ) (s e : ℚ) (hne : K ≠ [])
    (hs : K.Sorted (· ≤ ·)) (hse : s ≤ e) :
    (find_keyframe_after_or_equal K e ≤ find_keyframe_before_or_equal K s →
      (locate K s e).end_kf = max e (find_keyframe_before_or_equal K s + (0.1 : ℚ))) ∧
    (¬ find_keyframe_after_or_equal K e ≤ find_keyframe_before_or_equal K s →
      (((locate K s e).end_kf ∈ K ∧ e ≤ (locate K s e).end_kf) ∨
       ((∀ k ∈ K, k < e) ∧ (locate K s e).end_kf ∈ K ∧
        ∀ k ∈ K, k ≤ (locate K s e).end_kf))) := by
  rw [locate_ne_nil K s e hne]
  constructor
  · intro h
    show (if find_keyframe_after_or_equal K e ≤ find_keyframe_before_or_equal K s
          then max e (find_keyframe_before_or_equal K s + (0.1 : ℚ))
          else find_keyframe_after_or_equal K e) = _
    rw [if_pos h]
  · intro h
    show ((if find_keyframe_after_or_equal K e ≤ find_keyframe_before_or_equal K s
           then max e (find_keyframe_before_or_equal K s + (0.1 : ℚ))
           else find_keyframe_after_or_equal K e) ∈ K ∧ _) ∨ _
    rw [if_neg h]
    by_cases hex : ∃ k ∈ K, e ≤ k
    · exact Or.inl (find_after_mem K e hex)
    · push_neg at hex
      have hdef := find_after_default K e hne (fun k hk => not_le.mpr (hex k hk))
      right
      refine ⟨fun k hk => hex k hk, ?_, ?_⟩
      · rw [hdef]; exact List.getLast_mem hne
      · intro k hk; rw [hdef]; exact sorted_le_getLast K hs k hk hne

/-- C1 amended witness: K = [0, 10], request (1, 1.05). -/
theorem C1_end_aligned_amended_witness :
    (([0, 10] : List ℚ) ≠ [] ∧ ([0, 10] : List ℚ).Sorted (· ≤ ·) ∧ (1 : ℚ) ≤ 1.05) ∧
    ((find_keyframe_after_or_equal [0, 10] 1.05 ≤ find_keyframe_before_or_equal [0, 10] 1 →
       (locate [0, 10] 1 1.05).end_kf =
         max 1.05 (find_keyframe_before_or_equal [0, 10] 1 + (0.1 : ℚ))) ∧
     (¬ find_keyframe_after_or_equal [0, 10] 1.05 ≤ find_keyframe_before_or_equal [0, 10] 1 →
       (((locate [0, 10] 1 1.05).end_kf ∈ ([0, 10] : List ℚ) ∧
         (1.05 : ℚ) ≤ (locate [0, 10] 1 1.05).end_kf) ∨
        ((∀ k ∈ ([0, 10] : List ℚ), k < 1.05) ∧
         (locate [0, 10] 1 1.05).end_kf ∈ ([0, 10] : List ℚ) ∧
         ∀ k ∈ ([0, 10] : List ℚ), k ≤ (locate [0, 10] 1 1.05).end_kf)))) :=
  ⟨⟨by simp, by norm_num [List.sorted_cons], by norm_num⟩,
   C1_end_aligned_amended [0, 10] 1 1.05 (by simp) (by norm_num [List.sorted_cons]) (by norm_num)⟩

/-- C2 counterexample: K = [], request (5, 3).  The no-keyframe passthrough
keeps start = 5 and end = 3; the duration floor only raises `duration` to 0.1
and never touches `end`, so end > start fails. -/
theorem C2_end_gt_start_counterexample :
    ¬ ((locate [] 5 3).start_kf < (locate [] 5 3).end_kf) := by
  norm_num [locate]

/-- C2 amended: for every NON-EMPTY keyframe sequence K and every requested
range, the AlignedRange produced by the locator satisfies end > start (the
`end_kf <= start_kf` correction enforces it); for the empty sequence the
passthrough can yield end ≤ start. -/
theorem C2_end_gt_start_amended (K : List ℚ) (s e : ℚ) (hne : K ≠ []) :
    (locate K s e).start_kf < (locate K s e).end_kf := by
  rw [locate_ne_nil K s e hne]
  show find_keyframe_before_or_equal K s <
    (if find_keyframe_after_or_equal K e ≤ find_keyframe_before_or_equal K s
     then max e (find_keyframe_before_or_equal K s + (0.1 : ℚ))
     else find_keyframe_after_or_equal K e)
  by_cases h : find_keyframe_after_or_equal K e ≤ find_keyframe_before_or_equal K s
  · rw [if_pos h]
    calc find_keyframe_before_or_equal K s
        < find_keyframe_before_or_equal K s + 0.1 := by norm_num
      _ ≤ max e (find_keyframe_before_or_equal K s + 0.1) := le_max_right _ _
  · rw [if_neg h]
    exact not_le.mp h

/-- C2 amended witness: K = [2], request (3, 5). -/
theorem C2_end_gt_start_amended_witness :
    (([2] : List ℚ) ≠ []) ∧ (locate [2] 3 5).start_kf < (locate [2] 3 5).end_kf :=
  ⟨by simp, C2_end_gt_start_amended [2] 3 5 (by simp)⟩

/-- C3: for every keyframe sequence K (empty or not) and every requested range
(s, e), including s == e and s > e, the duration computed by the locator is
≥ 0.1. -/
theorem C3_duration_floor (K : List ℚ) (s e : ℚ) :
    (0.1 : ℚ) ≤ (locate K s e).duration := by
  cases K with
  | nil => exact le_max_left _ _
  | cons a as => exact le_max_left _ _

/-- C5: for every requested range (s, e), with an empty keyframe sequence the
locator returns start == s and end == e exactly (no-keyframe passthrough; no
alignment or correction is applied to start and end). -/
theorem C5_empty_passthrough (s e : ℚ) :
    (locate [] s e).start_kf = s ∧ (locate [] s e).end_kf = e :=
  ⟨rfl, rfl⟩

/-- C6 counterexample: the absolute forward-slash path `/x:/a.srt` has no
leading drive-letter-colon pattern (it begins with a slash), yet the
colon-escaping step is not a no-op on it: the test `":" in abs_path[1:3]`
also fires on a colon at index 2, so the colon gets escaped. -/
theorem C6_colon_escape_counterexample :
    ("/x:/a.srt".data).head? = some '/' ∧
    startsWithDriveLetter ("/x:/a.srt".data) = false ∧
    fixPathChars ("/x:/a.srt".data) ≠ "/x:/a.srt".data := by
  refine ⟨rfl, rfl, ?_⟩
  decide

/-- C6 amended: for a path whose absolute forward-slash form begins with a
single letter followed by a colon, `fix_path_for_ffmpeg` escapes the colon
immediately following the drive letter (replacing it with backslash-colon);
the colon-escaping step is a no-op exactly when no colon occurs at index 1 or
index 2 of the absolute form (which covers `/home/user/a.srt`, but not every
path lacking the drive-letter pattern). -/
theorem C6_colon_escape_amended (c : Char) (rest l : List Char)
    (hc : c.isAlpha = true) (hl : hasColonAt12 l = false) :
    fixPathChars (c :: ':' :: rest) = c :: '\\' :: ':' :: rest ∧
    fixPathChars l = l := by
  constructor
  · have hcne : ¬ (c = ':') := by
      intro h
      subst h
      exact absurd hc (by decide)
    have hcol : hasColonAt12 (c :: ':' :: rest) = true := by
      simp [hasColonAt12]
    simp [fixPathChars, hcol, replaceFirstColon, hcne]
  · simp [fixPathChars, hl]

/-- C6 amended witness: `D:/clips/a.srt` (= 'D' :: ':' :: "/clips/a.srt") gets
its drive colon escaped; `/home/user/a.srt` is untouched. -/
theorem C6_colon_escape_amended_witness :
    ('D'.isAlpha = true ∧ hasColonAt12 ("/home/user/a.srt".data) = false) ∧
    (fixPathChars ('D' :: ':' :: "/clips/a.srt".data) =
       'D' :: '\\' :: ':' :: "/clips/a.srt".data ∧
     fixPathChars ("/home/user/a.srt".data) = "/home/user/a.srt".data) :=
  ⟨⟨by decide, by decide⟩,
   C6_colon_escape_amended 'D' "/clips/a.srt".data "/home/user/a.srt".data
     (by decide) (by decide)⟩

/-- C7: for K = [0.0, 10.0] and requested range (1.0, 1.05), the locator
returns start = 0.0, end = 10.0, duration = 10.0. -/
theorem C7_sparse_scenario :
    locate [0, 10] 1 1.05 = { start_kf := 0, end_kf := 10, duration := 10 } := by
  norm_num [locate, find_keyframe_before_or_equal, find_keyframe_after_or_equal, List.filter]

/-- C8: when the Encoder exits non-zero, `run_cmd` raises a
`CalledProcessError` identifying the failed command, and `main` catches it and
reports the failure banner, returning normally (the report function has plain
result type `String`, i.e. nothing is re-raised); a zero exit raises nothing
and the success banner is printed. -/
theorem C8_encode_failure_handling (rc : Int) (cmd : List String) (out : String) :
    (rc ≠ 0 →
      run_command rc cmd = Except.error { returncode := rc, cmd := cmd } ∧
      mainEncodeReport rc cmd out = failureMessage) ∧
    (rc = 0 →
      run_command rc cmd = Except.ok () ∧
      mainEncodeReport rc cmd out = successMessage out) := by
  constructor
  · intro h
    constructor <;> simp [run_command, mainEncodeReport, h]
  · intro h
    subst h
    constructor <;> simp [run_command, mainEncodeReport]

/-- C8 witness: exit code 1 yields the error and the failure banner; exit
code 0 yields success and the success banner. -/
theorem C8_encode_failure_handling_witness :
    ((1 : Int) ≠ 0 ∧
     (run_command 1 ["ffmpeg"] = Except.error { returncode := 1, cmd := ["ffmpeg"] } ∧
      mainEncodeReport 1 ["ffmpeg"] "out.mp4" = failureMessage)) ∧
    ((0 : Int) = 0 ∧
     (run_command 0 ["ffmpeg"] = Except.ok () ∧
      mainEncodeReport 0 ["ffmpeg"] "out.mp4" = successMessage "out.mp4")) :=
  ⟨⟨by decide, (C8_encode_failure_handling 1 ["ffmpeg"] "out.mp4").1 (by decide)⟩,
   ⟨rfl, (C8_encode_failure_handling 0 ["ffmpeg"] "out.mp4").2 rfl⟩⟩

/-- C9: `build_ffmpeg_command` is a pure function: two calls with identical
input path, subtitle path, aligned start, duration, output path and quality
parameters produce identical argument lists (filter-chain strings included). -/
theorem C9_build_deterministic (i₁ i₂ : String) (s₁ s₂ : Option String)
    (a₁ a₂ d₁ d₂ : ℚ) (o₁ o₂ : String) (c₁ c₂ : Nat) (p₁ p₂ : String)
    (hi : i₁ = i₂) (hs : s₁ = s₂) (ha : a₁ = a₂) (hd : d₁ = d₂)
    (ho : o₁ = o₂) (hc : c₁ = c₂) (hp : p₁ = p₂) :
    build_ffmpeg_command i₁ s₁ a₁ d₁ o₁ c₁ p₁ =
    build_ffmpeg_command i₂ s₂ a₂ d₂ o₂ c₂ p₂ := by
  subst hi hs ha hd ho hc hp
  rfl

/-- C9 witness: the command for a concrete invocation equals itself when
rebuilt from the same inputs. -/
theorem C9_build_deterministic_witness :
    build_ffmpeg_command "in.mp4" (some "D:/clips/a.srt") 2 4 "out.mp4" 18 "veryfast" =
    build_ffmpeg_command "in.mp4" (some "D:/clips/a.srt") 2 4 "out.mp4" 18 "veryfast" :=
  C9_build_deterministic "in.mp4" "in.mp4" (some "D:/clips/a.srt") (some "D:/clips/a.srt")
    2 2 4 4 "out.mp4" "out.mp4" 18 18 "veryfast" "veryfast"
    rfl rfl rfl rfl rfl rfl rfl

/-- C10: `find_keyframe_after_or_equal` is total.  The version with the
possibly-failing `times[-1]` access made explicit (`Option`-valued, `none`
modelling an IndexError) always returns `some` — it agrees with the total
function everywhere — and on the empty list the function returns t itself. -/
theorem C10_after_or_equal_total (times : List ℚ) (t : ℚ) :
    find_keyframe_after_or_equalE times t = some (find_keyframe_after_or_equal times t) ∧
    find_keyframe_after_or_equalE ([] : List ℚ) t = some t := by
  refine ⟨?_, rfl⟩
  cases times with
  | nil => rfl
  | cons a as =>
    unfold find_keyframe_after_or_equalE find_keyframe_after_or_equal
    cases hfil : (a :: as).filter (fun kf => t ≤ kf) with
    | nil =>
      simp [hfil, List.getLast?_eq_getLast_of_ne_nil (List.cons_ne_nil a as)]
    | cons x xs =>
      simp [hfil]

end FFmpegPipeline
